import Mathlib

set_option maxHeartbeats 1000000
set_option linter.unusedVariables false

/-!
Verification of the ReGBA in-application menu module
(`source/opendingux/gui.c`), shallowly embedded in Lean 4.

Button sets are modelled as natural numbers used as bitmasks: the C code
uses `enum OpenDingux_Buttons`, a `uint32_t` bitmask whose 16 recognized
buttons occupy bits 0 through 15.
-/

namespace ReGBA

/-- Bitmask inclusion over `uint32_t` button sets: every bit of `a`
(within the 32-bit range) is also set in `b`. -/
def MaskSubset (a b : Nat) : Prop :=
  ∀ i < 32, a.testBit i = true → b.testBit i = true

instance (a b : Nat) : Decidable (MaskSubset a b) := by
  unfold MaskSubset; infer_instance

/-- For `uint32_t`-sized masks, the C test `(S | T) == S` is exactly the
statement that `T` is a subset of `S`. -/
theorem lor_eq_left_iff_subset {S T : Nat} (hS : S < 2 ^ 32) (hT : T < 2 ^ 32) :
    S ||| T = S ↔ MaskSubset T S := by
  constructor
  · intro h i _ hb
    have h2 := congrArg (Nat.testBit · i) h
    simp only [Nat.testBit_lor] at h2
    rw [hb] at h2
    simpa using h2
  · intro h
    apply Nat.eq_of_testBit_eq
    intro i
    rw [Nat.testBit_lor]
    by_cases hi : i < 32
    · cases hb : T.testBit i
      · simp
      · simp [h i hi hb]
    · have hSb : S.testBit i = false :=
        Nat.testBit_lt_two_pow (lt_of_lt_of_le hS (Nat.pow_le_pow_right (by norm_num) (by omega)))
      have hTb : T.testBit i = false :=
        Nat.testBit_lt_two_pow (lt_of_lt_of_le hT (Nat.pow_le_pow_right (by norm_num) (by omega)))
      simp [hSb, hTb]

/-- One step of the three-way merge in the accumulation loop of
`GrabButtons` (gui.c lines 692-709). `T` is the running total
`ButtonTotal`; `S` is the newly sampled `Buttons`. -/
def GrabButtonsMerge (T S : Nat) : Nat :=
  if S ||| T = S then T ||| S
  else if S ||| T = T then T
  else S

/-- The accumulation loop of `GrabButtons` (lines 692-709): merge each
sampled frame into the running total until a frame with no pressed
buttons is sampled, then return the total. -/
def GrabButtonsAccum : Nat → List Nat → Nat
  | T, [] => T
  | T, S :: rest => if S = 0 then T else GrabButtonsAccum (GrabButtonsMerge T S) rest

/-- `GrabButtons` from the wait-for-press loop onward (lines 675-710),
over the stream of per-frame sampled button masks: frames with no
pressed button are skipped; the first non-empty frame initialises
`ButtonTotal` (line 691); subsequent frames are merged. `none` means the
stream ended while the code was still waiting for a press. -/
def GrabButtonsCapture (frames : List Nat) : Option Nat :=
  match frames.dropWhile (· == 0) with
  | [] => none
  | S :: rest => some (GrabButtonsAccum S rest)

/-- The accumulation loop of `GrabButton` (lines 652-660): OR each
sampled frame into the running total until a frame with no pressed
buttons is sampled. -/
def GrabButtonAccum : Nat → List Nat → Nat
  | T, [] => T
  | T, S :: rest => if S = 0 then T else GrabButtonAccum (T ||| S) rest

/-- `GrabButton` from the wait-for-press loop onward (lines 636-661). -/
def GrabButtonCapture (frames : List Nat) : Option Nat :=
  match frames.dropWhile (· == 0) with
  | [] => none
  | S :: rest => some (GrabButtonAccum S rest)

/-- The union of the sampled frames up to (excluding) the first empty
one; the specification-side description of what `GrabButton`
accumulates. -/
def PressedUnion : List Nat → Nat
  | [] => 0
  | S :: rest => if S = 0 then 0 else S ||| PressedUnion rest

/-- The bit-counting loop shared by `ActionSetMapping` (lines 725-728)
and `ActionSetOrClearMapping` (lines 745-748): counts the set bits of a
mask among the 16 recognized buttons. -/
def BitCount16 (m : Nat) : Nat :=
  (List.range 16).foldl (fun acc i => if m &&& (1 <<< i) ≠ 0 then acc + 1 else acc) 0

/-- The commit policy of `ActionSetMapping` (lines 729-730): write the
accumulated set to the entry's target only when it has exactly one bit
set; otherwise leave the target unchanged. -/
def ActionSetMappingCommit (old total : Nat) : Nat :=
  if BitCount16 total = 1 then total else old

/-- The commit policy of `ActionSetOrClearMapping` (lines 749-751):
write the accumulated set when it has exactly one bit set, and write 0
otherwise. -/
def ActionSetOrClearMappingCommit (old total : Nat) : Nat :=
  if BitCount16 total = 1 then total else 0

/-- The C bit test `(m & (1 << i)) != 0` is `Nat.testBit m i`. -/
theorem and_shift_ne_zero_iff (m i : Nat) : (m &&& (1 <<< i) ≠ 0) ↔ m.testBit i = true := by
  rw [Nat.shiftLeft_eq, one_mul, Nat.and_two_pow]
  cases h : m.testBit i <;> simp [h]

/-- The counting fold of `BitCount16` counts the bits selected by
`Nat.testBit`. -/
theorem bitCount16_foldl_eq (m : Nat) (l : List Nat) (acc : Nat) :
    l.foldl (fun acc i => if m &&& (1 <<< i) ≠ 0 then acc + 1 else acc) acc
      = acc + (l.filter (fun i => m.testBit i)).length := by
  induction l generalizing acc with
  | nil => simp
  | cons x xs ih =>
    rw [List.foldl_cons, List.filter_cons]
    by_cases hx : m.testBit x = true
    · rw [if_pos ((and_shift_ne_zero_iff m x).mpr hx)]
      simp only [hx, if_pos]
      rw [ih]
      simp; omega
    · rw [if_neg (fun hc => hx ((and_shift_ne_zero_iff m x).mp hc))]
      simp only [Bool.not_eq_true] at hx
      simp only [hx]
      rw [ih]
      simp

theorem bitCount16_eq_length_filter (m : Nat) :
    BitCount16 m = ((List.range 16).filter (fun i => m.testBit i)).length := by
  unfold BitCount16
  rw [bitCount16_foldl_eq, Nat.zero_add]

/-- `BitCount16 m = 1` exactly when `m` is a single recognized button,
i.e. a power of two with exponent below 16 (for masks within the 16
recognized buttons). -/
theorem bitCount16_eq_one_iff {m : Nat} (hm : m < 2 ^ 16) :
    BitCount16 m = 1 ↔ ∃ i < 16, m = 2 ^ i := by
  rw [bitCount16_eq_length_filter]
  constructor
  · intro h
    obtain ⟨a, ha⟩ := List.length_eq_one.mp h
    have haMem : a ∈ (List.range 16).filter (fun i => m.testBit i) := by simp [ha]
    rw [List.mem_filter, List.mem_range] at haMem
    refine ⟨a, haMem.1, ?_⟩
    apply Nat.eq_of_testBit_eq
    intro j
    rcases eq_or_ne j a with rfl | hja
    · simp [haMem.2, Nat.testBit_two_pow_self]
    · rw [Nat.testBit_two_pow_of_ne (Ne.symm hja)]
      by_cases hj : j < 16
      · by_contra hb
        have : j ∈ (List.range 16).filter (fun i => m.testBit i) := by
          rw [List.mem_filter, List.mem_range]
          exact ⟨hj, by simpa using hb⟩
        rw [ha] at this
        simp at this
        exact hja this
      · exact Nat.testBit_lt_two_pow
          (lt_of_lt_of_le hm (Nat.pow_le_pow_right (by norm_num) (by omega)))
  · rintro ⟨i, hi, rfl⟩
    have key : ∀ i < 16,
        (((List.range 16).filter (fun j => (2 ^ i : Nat).testBit j)).length) = 1 := by decide
    exact key i hi

/-- C3: in multi-binding (hotkey) capture, `GrabButtons` merges each
newly sampled non-empty frame `S` into the running total `T` by: if `T ⊆
S`, replace `T` with `S`; else if `S ⊆ T`, keep `T`; else replace `T`
with `S`. Accumulation stops at the first empty frame and the final
total is returned; hence the frame sequence `{A}, {A,B}, {A,B,C}, {B,C},
{}` resolves to `{A,B,C}` and `{A}, {B}, {}` resolves to `{B}` (with
`A`, `B`, `C` standing for bits 0, 1, 2). -/
theorem GrabButtons_merge_spec :
    (∀ T S : Nat, T < 2 ^ 32 → S < 2 ^ 32 →
      (MaskSubset T S → GrabButtonsMerge T S = S) ∧
      (¬ MaskSubset T S → MaskSubset S T → GrabButtonsMerge T S = T) ∧
      (¬ MaskSubset T S → ¬ MaskSubset S T → GrabButtonsMerge T S = S)) ∧
    GrabButtonsCapture [1, 3, 7, 6, 0] = some 7 ∧
    GrabButtonsCapture [1, 2, 0] = some 2 := by
  refine ⟨fun T S hT hS => ⟨?_, ?_, ?_⟩, by decide, by decide⟩
  · intro h
    have hc : S ||| T = S := (lor_eq_left_iff_subset hS hT).mpr h
    rw [GrabButtonsMerge, if_pos hc, Nat.lor_comm, hc]
  · intro h1 h2
    have hc1 : ¬(S ||| T = S) := fun hc => h1 ((lor_eq_left_iff_subset hS hT).mp hc)
    have hc2 : S ||| T = T := by
      rw [Nat.lor_comm]; exact (lor_eq_left_iff_subset hT hS).mpr h2
    rw [GrabButtonsMerge, if_neg hc1, if_pos hc2]
  · intro h1 h2
    have hc1 : ¬(S ||| T = S) := fun hc => h1 ((lor_eq_left_iff_subset hS hT).mp hc)
    have hc2 : ¬(S ||| T = T) := fun hc =>
      h2 ((lor_eq_left_iff_subset hT hS).mp (by rwa [Nat.lor_comm]))
    rw [GrabButtonsMerge, if_neg hc1, if_neg hc2]

/-- Witness for C3 at concrete inputs: merging `{A}` with `{A,B}` grows
the total, merging `{A,B}` with `{A}` keeps it, and merging `{A}` with
`{B}` replaces it. -/
theorem GrabButtons_merge_spec_witness :
    GrabButtonsMerge 1 3 = 3 ∧ GrabButtonsMerge 3 1 = 3 ∧ GrabButtonsMerge 1 2 = 2 :=
  ⟨(GrabButtons_merge_spec.1 1 3 (by decide) (by decide)).1 (by decide),
   (GrabButtons_merge_spec.1 3 1 (by decide) (by decide)).2.1 (by decide) (by decide),
   (GrabButtons_merge_spec.1 1 2 (by decide) (by decide)).2.2 (by decide) (by decide)⟩

/-- C5: single-binding capture ORs together every sampled frame until
the first empty frame; `ActionSetMapping` then commits the accumulated
set to the target exactly when it has exactly one bit set (leaving the
target unchanged otherwise), while `ActionSetOrClearMapping` commits it
when it has exactly one bit set and writes 0 otherwise. -/
theorem GrabButton_commit_spec :
    (∀ (T : Nat) (frames : List Nat),
      GrabButtonAccum T frames = T ||| PressedUnion frames) ∧
    (∀ old total : Nat, total < 2 ^ 16 →
      ((∃ i < 16, total = 2 ^ i) →
        ActionSetMappingCommit old total = total ∧
        ActionSetOrClearMappingCommit old total = total) ∧
      (¬(∃ i < 16, total = 2 ^ i) →
        ActionSetMappingCommit old total = old ∧
        ActionSetOrClearMappingCommit old total = 0)) := by
  constructor
  · intro T frames
    induction frames generalizing T with
    | nil => simp [GrabButtonAccum, PressedUnion]
    | cons S rest ih =>
      by_cases hS : S = 0
      · simp [GrabButtonAccum, PressedUnion, hS]
      · simp only [GrabButtonAccum, PressedUnion, if_neg hS, ih, Nat.lor_assoc]
  · intro old total htotal
    constructor
    · intro h
      have hbc : BitCount16 total = 1 := (bitCount16_eq_one_iff htotal).mpr h
      exact ⟨by rw [ActionSetMappingCommit, if_pos hbc],
             by rw [ActionSetOrClearMappingCommit, if_pos hbc]⟩
    · intro h
      have hbc : ¬(BitCount16 total = 1) := fun hc => h ((bitCount16_eq_one_iff htotal).mp hc)
      exact ⟨by rw [ActionSetMappingCommit, if_neg hbc],
             by rw [ActionSetOrClearMappingCommit, if_neg hbc]⟩

/-- Witness for C5 at concrete inputs: the frames `{A}, {A,B}, {}`
accumulate to `{A,B}` (two bits), so `ActionSetMapping` leaves the old
binding `4` unchanged and `ActionSetOrClearMapping` clears it; the
frames `{A}, {}` accumulate to `{A}`, which is committed. -/
theorem GrabButton_commit_spec_witness :
    GrabButtonAccum 1 [3, 0] = 1 ||| PressedUnion [3, 0] ∧
    ActionSetMappingCommit 4 3 = 4 ∧
    ActionSetOrClearMappingCommit 4 3 = 0 ∧
    ActionSetMappingCommit 4 1 = 1 ∧
    ActionSetOrClearMappingCommit 4 1 = 1 :=
  ⟨GrabButton_commit_spec.1 1 [3, 0],
   ((GrabButton_commit_spec.2 4 3 (by decide)).2 (by decide)).1,
   ((GrabButton_commit_spec.2 4 3 (by decide)).2 (by decide)).2,
   ((GrabButton_commit_spec.2 4 1 (by decide)).1 ⟨0, by decide, by decide⟩).1,
   ((GrabButton_commit_spec.2 4 1 (by decide)).1 ⟨0, by decide, by decide⟩).2⟩

/-- `DefaultRightFunction` (gui.c lines 181-190) acting on the `uint32_t`
target of a `KIND_OPTION` entry: increment (with 32-bit wrap-around),
then reset to 0 when the result reaches `ChoiceCount`. -/
def DefaultRightStep (choiceCount target : Nat) : Nat :=
  let t := (target + 1) % 2 ^ 32
  if choiceCount ≤ t then 0 else t

/-- `DefaultLeftFunction` (gui.c lines 192-201): if the target is 0, set
it to `ChoiceCount`; then decrement (with 32-bit wrap-around). -/
def DefaultLeftStep (choiceCount target : Nat) : Nat :=
  (((if target = 0 then choiceCount else target) + (2 ^ 32 - 1)) % 2 ^ 32)

theorem defaultRightStep_eq_mod {C i : Nat} (hC : C < 2 ^ 32) (hi : i < C) :
    DefaultRightStep C i = (i + 1) % C := by
  unfold DefaultRightStep
  have h1 : (i + 1) % 2 ^ 32 = i + 1 := Nat.mod_eq_of_lt (by omega)
  simp only [h1]
  by_cases h : C ≤ i + 1
  · have : i + 1 = C := by omega
    rw [if_pos h, this, Nat.mod_self]
  · rw [if_neg h, Nat.mod_eq_of_lt (by omega)]

theorem defaultLeftStep_eq_mod {C i : Nat} (hC : C < 2 ^ 32) (hi : i < C) :
    DefaultLeftStep C i = (i + (C - 1)) % C := by
  unfold DefaultLeftStep
  by_cases h : i = 0
  · subst h
    have h1 : C + (2 ^ 32 - 1) = (C - 1) + 2 ^ 32 := by omega
    rw [if_pos rfl, h1, Nat.add_mod_right, Nat.mod_eq_of_lt (by omega),
      Nat.zero_add, Nat.mod_eq_of_lt (by omega)]
  · have h1 : i + (2 ^ 32 - 1) = (i - 1) + 2 ^ 32 := by omega
    have h2 : i + (C - 1) = (i - 1) + C := by omega
    rw [if_neg h, h1, Nat.add_mod_right, h2, Nat.add_mod_right,
      Nat.mod_eq_of_lt (by omega), Nat.mod_eq_of_lt (by omega)]

/-- Iterating any function that acts as `+ d (mod C)` on `[0, C)`. -/
theorem iterate_add_mod (C d : Nat) (hC : 0 < C) (f : Nat → Nat)
    (hf : ∀ i < C, f i = (i + d) % C) :
    ∀ k i, i < C → f^[k] i = (i + k * d) % C := by
  intro k
  induction k with
  | zero => intro i hi; simpa using (Nat.mod_eq_of_lt hi).symm
  | succ k ih =>
    intro i hi
    rw [Function.iterate_succ_apply, hf i hi]
    have hlt : (i + d) % C < C := Nat.mod_lt _ hC
    rw [ih _ hlt]
    have h1 : ((i + d) % C + k * d) % C = ((i + d) + k * d) % C :=
      Nat.ModEq.add_right (k * d) (Nat.mod_modEq (i + d) C)
    rw [h1]
    congr 1
    ring

/-- C8: for an option entry with `C` choices, the default on-right
operation is successor modulo `C` and the default on-left is predecessor
modulo `C`; `C` consecutive steps in either direction return the target
to its starting index, and within one such cycle every index in `[0, C)`
is visited exactly once (the visits are injective over the cycle and
reach every index). -/
theorem DefaultLeftRight_cycle_spec :
    ∀ C i : Nat, C < 2 ^ 32 → 0 < C → i < C →
      DefaultRightStep C i = (i + 1) % C ∧
      DefaultLeftStep C i = (i + (C - 1)) % C ∧
      (DefaultRightStep C)^[C] i = i ∧
      (DefaultLeftStep C)^[C] i = i ∧
      (∀ a < C, ∀ b < C, (DefaultRightStep C)^[a] i = (DefaultRightStep C)^[b] i → a = b) ∧
      (∀ a < C, ∀ b < C, (DefaultLeftStep C)^[a] i = (DefaultLeftStep C)^[b] i → a = b) ∧
      (∀ j < C, ∃ k < C, (DefaultRightStep C)^[k] i = j) ∧
      (∀ j < C, ∃ k < C, (DefaultLeftStep C)^[k] i = j) := by
  intro C i hC32 hC hi
  have hr : ∀ j < C, DefaultRightStep C j = (j + 1) % C :=
    fun j hj => defaultRightStep_eq_mod hC32 hj
  have hl : ∀ j < C, DefaultLeftStep C j = (j + (C - 1)) % C :=
    fun j hj => defaultLeftStep_eq_mod hC32 hj
  have hri : ∀ k, (DefaultRightStep C)^[k] i = (i + k * 1) % C :=
    fun k => iterate_add_mod C 1 hC _ hr k i hi
  have hli : ∀ k, (DefaultLeftStep C)^[k] i = (i + k * (C - 1)) % C :=
    fun k => iterate_add_mod C (C - 1) hC _ hl k i hi
  refine ⟨hr i hi, hl i hi, ?_, ?_, ?_, ?_, ?_, ?_⟩
  · rw [hri C, Nat.mul_one, Nat.add_mod_right, Nat.mod_eq_of_lt hi]
  · rw [hli C]
    have h1 : i + C * (C - 1) = i + C * (C - 1) := rfl
    rw [Nat.add_mul_mod_self_left, Nat.mod_eq_of_lt hi]
  · intro a ha b hb hab
    rw [hri a, hri b, Nat.mul_one, Nat.mul_one] at hab
    have h1 : i + a ≡ i + b [MOD C] := hab
    have h2 : a ≡ b [MOD C] := Nat.ModEq.add_left_cancel' i h1
    have := h2.eq_of_lt_of_lt ha hb
    exact this
  · intro a ha b hb hab
    rw [hli a, hli b] at hab
    have h1 : i + a * (C - 1) ≡ i + b * (C - 1) [MOD C] := hab
    have h2 : a * (C - 1) ≡ b * (C - 1) [MOD C] := Nat.ModEq.add_left_cancel' i h1
    have hco : Nat.gcd C (C - 1) = 1 := by
      have h5 := Nat.dvd_sub' (Nat.gcd_dvd_left C (C - 1)) (Nat.gcd_dvd_right C (C - 1))
      rw [show C - (C - 1) = 1 by omega] at h5
      exact Nat.dvd_one.mp h5
    have h4 : a ≡ b [MOD C] := Nat.ModEq.cancel_right_of_coprime hco h2
    exact h4.eq_of_lt_of_lt ha hb
  · intro j hj
    refine ⟨(C + j - i) % C, Nat.mod_lt _ hC, ?_⟩
    rw [hri _, Nat.mul_one]
    have h1 : i + (C + j - i) % C ≡ i + (C + j - i) [MOD C] :=
      Nat.ModEq.add_left i (Nat.mod_modEq (C + j - i) C)
    have h2 : i + (C + j - i) = j + C := by omega
    calc (i + (C + j - i) % C) % C
        = (i + (C + j - i)) % C := h1
      _ = (j + C) % C := by rw [h2]
      _ = j := by rw [Nat.add_mod_right, Nat.mod_eq_of_lt hj]
  · intro j hj
    refine ⟨(C + i - j) % C, Nat.mod_lt _ hC, ?_⟩
    rw [hli _]
    have h1 : i + ((C + i - j) % C) * (C - 1) ≡ i + (C + i - j) * (C - 1) [MOD C] :=
      Nat.ModEq.add_left i ((Nat.mod_modEq (C + i - j) C).mul_right (C - 1))
    have h2 : i + (C + i - j) * (C - 1) = j + C * (C + i - j - 1) := by
      zify [show j ≤ C + i by omega, show 1 ≤ C by omega, show 1 ≤ C + i - j by omega]
      ring
    calc (i + ((C + i - j) % C) * (C - 1)) % C
        = (i + (C + i - j) * (C - 1)) % C := h1
      _ = (j + C * (C + i - j - 1)) % C := by rw [h2]
      _ = j := by rw [Nat.add_mul_mod_self_left, Nat.mod_eq_of_lt hj]

/-- Witness for C8 at `C = 3`, `i = 1`: three rights (or lefts) return
to 1, and index 0 is reached within the cycle. -/
theorem DefaultLeftRight_cycle_spec_witness :
    (DefaultRightStep 3)^[3] 1 = 1 ∧ (DefaultLeftStep 3)^[3] 1 = 1 ∧
    ∃ k < 3, (DefaultRightStep 3)^[k] 1 = 0 :=
  ⟨(DefaultLeftRight_cycle_spec 3 1 (by decide) (by decide) (by decide)).2.2.1,
   (DefaultLeftRight_cycle_spec 3 1 (by decide) (by decide) (by decide)).2.2.2.1,
   (DefaultLeftRight_cycle_spec 3 1 (by decide) (by decide) (by decide)).2.2.2.2.2.2.1 0
     (by decide)⟩

/-- `OpenDinguxButtonText` (gui.c lines 380-397): the human-readable
name of each recognized button. `LEFT_FACE_BUTTON_NAME` and
`TOP_FACE_BUTTON_NAME` are platform macros defined outside this module;
in the SNES/DS/A320 naming used alongside the save codes they are "Y"
and "X". -/
def OpenDinguxButtonText : List String :=
  ["L", "R", "D-pad Down", "D-pad Up", "D-pad Left", "D-pad Right",
   "Start", "Select", "B", "A", "Y", "X",
   "Analog Down", "Analog Up", "Analog Left", "Analog Right"]

/-- `OpenDinguxButtonSave` (gui.c lines 504-521): the one-character
persistence code of each recognized button. -/
def OpenDinguxButtonSave : List Char :=
  ['L', 'R', 'v', '^', '<', '>', 'S', 's', 'B', 'A', 'Y', 'X', 'd', 'u', 'l', 'r']

/-- `GetButtonsText` (gui.c lines 444-466): "None" for the empty set,
otherwise the names of all set bits joined with `+`, in table order. -/
def GetButtonsText (buttons : Nat) : String :=
  if buttons = 0 then "None"
  else String.intercalate "+"
    (((List.range 16).filter (fun i => buttons &&& (1 <<< i) ≠ 0)).map
      (fun i => OpenDinguxButtonText.getD i ""))

/-- `LoadMappingFunction` (gui.c lines 523-537): only the first
character of the token is consulted; `x` (or any character not in the
code table, including the terminator of an empty token) yields 0;
otherwise the first table entry matching the character gives the single
button bit. -/
def LoadMappingFunction (value : List Char) : Nat :=
  if value.headD (Char.ofNat 0) = 'x' then 0
  else
    match (List.range 16).find?
        (fun i => value.headD (Char.ofNat 0) = OpenDinguxButtonSave.getD i ' ') with
    | some i => 1 <<< i
    | none => 0

/-- The `token #comment` payload built by `SaveMappingFunction` (gui.c
lines 539-554): the code character of the single set button followed by
a comment naming it, or `x #None` when the target is not exactly one
recognized button. -/
def SaveMappingTemp (target : Nat) : List Char :=
  match (List.range 16).find? (fun i => target = 1 <<< i) with
  | some i =>
      OpenDinguxButtonSave.getD i ' ' :: (" #" ++ OpenDinguxButtonText.getD i "").toList
  | none => "x #None".toList

/-- The token part of a saved mapping as the settings-line parser
delivers it back to `LoadMappingFunction`: everything before the
blank that precedes the `#` comment (no code character is a blank). -/
def SaveMappingToken (target : Nat) : List Char :=
  (SaveMappingTemp target).takeWhile (· ≠ ' ')

/-- The per-character step of the loop in `LoadHotkeyFunction` (gui.c
lines 561-572): a character in the code table ORs its button bit into
the accumulator; unrecognized characters are skipped. -/
def LoadHotkeyStep (h : Nat) (c : Char) : Nat :=
  match (List.range 16).find? (fun i => c = OpenDinguxButtonSave.getD i ' ') with
  | some i => h ||| (1 <<< i)
  | none => h

/-- `LoadHotkeyFunction` (gui.c lines 556-575). -/
def LoadHotkeyFunction (value : List Char) : Nat :=
  if value.headD (Char.ofNat 0) = 'x' then 0
  else value.foldl LoadHotkeyStep 0

/-- The character string built by the save loop of `SaveHotkeyFunction`
(gui.c lines 580-586): one code character per set bit, in table
order. -/
def SaveHotkeyChars (target : Nat) : List Char :=
  ((List.range 16).filter (fun i => target &&& (1 <<< i) ≠ 0)).map
    (fun i => OpenDinguxButtonSave.getD i ' ')

/-- The `token #comment` payload built by `SaveHotkeyFunction` (gui.c
lines 577-596). -/
def SaveHotkeyTemp (target : Nat) : List Char :=
  if SaveHotkeyChars target = [] then "x #None".toList
  else SaveHotkeyChars target ++ ' ' :: '#' :: (GetButtonsText target).toList

/-- The token part of a saved hotkey as the settings-line parser
delivers it back to `LoadHotkeyFunction`. -/
def SaveHotkeyToken (target : Nat) : List Char :=
  (SaveHotkeyTemp target).takeWhile (· ≠ ' ')

/-- C10: a mask that is not exactly one recognized button (zero bits, or
two or more bits, among the 16 recognized buttons) is serialized by
`SaveMappingFunction` as the token `x` with comment `#None`, and loading
that token back with `LoadMappingFunction` yields 0 (unbound). -/
theorem SaveMapping_nonsingle_spec :
    ∀ mask : Nat, (¬ ∃ i < 16, mask = 2 ^ i) →
      SaveMappingTemp mask = "x #None".toList ∧
      LoadMappingFunction (SaveMappingToken mask) = 0 := by
  intro mask h
  have hfind : (List.range 16).find? (fun i => mask = 1 <<< i) = none := by
    rw [List.find?_eq_none]
    intro j hj
    rw [List.mem_range] at hj
    simp only [decide_eq_true_eq]
    intro hc
    exact h ⟨j, hj, by rwa [Nat.shiftLeft_eq, one_mul] at hc⟩
  have hTemp : SaveMappingTemp mask = "x #None".toList := by
    rw [SaveMappingTemp, hfind]
  refine ⟨hTemp, ?_⟩
  rw [SaveMappingToken, hTemp]
  decide

/-- Witness for C10: the two-button mask `{A, B}` (bits 0 and 1) is
saved as `x #None` and reloads as 0. -/
theorem SaveMapping_nonsingle_spec_witness :
    SaveMappingTemp 3 = "x #None".toList ∧ LoadMappingFunction (SaveMappingToken 3) = 0 :=
  SaveMapping_nonsingle_spec 3 (by decide)

theorem mod_two_pow_succ_of_testBit_true {mask n : Nat} (h : mask.testBit n = true) :
    mask % 2 ^ (n + 1) = (mask % 2 ^ n) ||| 2 ^ n := by
  apply Nat.eq_of_testBit_eq
  intro j
  rw [Nat.testBit_lor, Nat.testBit_mod_two_pow, Nat.testBit_mod_two_pow]
  rcases lt_trichotomy j n with hj | rfl | hj
  · have h1 : decide (j < n + 1) = true := by simp only [decide_eq_true_eq]; omega
    have h2 : decide (j < n) = true := by simp only [decide_eq_true_eq]; omega
    rw [Nat.testBit_two_pow_of_ne (by omega : n ≠ j), h1, h2, Bool.true_and, Bool.or_false]
  · have h1 : decide (j < j + 1) = true := by simp only [decide_eq_true_eq]; omega
    have h2 : decide (j < j) = false := by simp only [decide_eq_false_iff_not]; omega
    rw [Nat.testBit_two_pow_self, h1, h2, Bool.true_and, Bool.false_and, Bool.false_or, h]
  · have h1 : decide (j < n + 1) = false := by simp only [decide_eq_false_iff_not]; omega
    have h2 : decide (j < n) = false := by simp only [decide_eq_false_iff_not]; omega
    rw [Nat.testBit_two_pow_of_ne (by omega : n ≠ j), h1, h2, Bool.false_and, Bool.or_false]

theorem mod_two_pow_succ_of_testBit_false {mask n : Nat} (h : mask.testBit n = false) :
    mask % 2 ^ (n + 1) = mask % 2 ^ n := by
  apply Nat.eq_of_testBit_eq
  intro j
  rw [Nat.testBit_mod_two_pow, Nat.testBit_mod_two_pow]
  rcases lt_trichotomy j n with hj | rfl | hj
  · have h1 : decide (j < n + 1) = true := by simp only [decide_eq_true_eq]; omega
    have h2 : decide (j < n) = true := by simp only [decide_eq_true_eq]; omega
    rw [h1, h2]
  · have h1 : decide (j < j + 1) = true := by simp only [decide_eq_true_eq]; omega
    have h2 : decide (j < j) = false := by simp only [decide_eq_false_iff_not]; omega
    rw [h1, h2, Bool.true_and, Bool.false_and, h]
  · have h1 : decide (j < n + 1) = false := by simp only [decide_eq_false_iff_not]; omega
    have h2 : decide (j < n) = false := by simp only [decide_eq_false_iff_not]; omega
    rw [h1, h2]

/-- ORing together `2^i` for every set bit of `mask` below `n`
recomposes `mask % 2^n`. -/
theorem foldl_lor_filter_range (mask : Nat) :
    ∀ (n : Nat) (acc : Nat),
      ((List.range n).filter (fun i => mask &&& (1 <<< i) ≠ 0)).foldl
        (fun a i => a ||| (1 <<< i)) acc = acc ||| (mask % 2 ^ n) := by
  intro n
  induction n with
  | zero => intro acc; simp [Nat.mod_one]
  | succ n ih =>
    intro acc
    rw [List.range_succ, List.filter_append, List.foldl_append, ih]
    by_cases hb : mask.testBit n = true
    · have hcond : mask &&& (1 <<< n) ≠ 0 := (and_shift_ne_zero_iff mask n).mpr hb
      have hfil : List.filter (fun i => decide (mask &&& (1 <<< i) ≠ 0)) [n] = [n] := by
        simp [hcond]
      rw [hfil, List.foldl_cons, List.foldl_nil,
        mod_two_pow_succ_of_testBit_true hb, Nat.shiftLeft_eq, one_mul, Nat.lor_assoc]
    · rw [Bool.not_eq_true] at hb
      have hcond : ¬(mask &&& (1 <<< n) ≠ 0) := fun hc =>
        by rw [(and_shift_ne_zero_iff mask n).mp hc] at hb; exact Bool.noConfusion hb
      have hfil : List.filter (fun i => decide (mask &&& (1 <<< i) ≠ 0)) [n] = [] := by
        simp [hcond]
      rw [hfil, List.foldl_nil, mod_two_pow_succ_of_testBit_false hb]

/-- Loading a code character whose index is `i` ORs exactly bit `i`. -/
theorem loadHotkeyStep_code (h : Nat) :
    ∀ i < 16, LoadHotkeyStep h (OpenDinguxButtonSave.getD i ' ') = h ||| (1 <<< i) := by
  have key : ∀ i < 16,
      (List.range 16).find?
        (fun j => OpenDinguxButtonSave.getD i ' ' = OpenDinguxButtonSave.getD j ' ')
        = some i := by decide
  intro i hi
  rw [LoadHotkeyStep, key i hi]

/-- Walking a list of code characters with the `LoadHotkeyFunction` loop
ORs together the corresponding button bits. -/
theorem foldl_loadHotkeyStep_map :
    ∀ (l : List Nat), (∀ i ∈ l, i < 16) → ∀ acc : Nat,
      (l.map (fun i => OpenDinguxButtonSave.getD i ' ')).foldl LoadHotkeyStep acc
        = l.foldl (fun a i => a ||| (1 <<< i)) acc := by
  intro l
  induction l with
  | nil => intro _ acc; rfl
  | cons x xs ih =>
    intro hmem acc
    rw [List.map_cons, List.foldl_cons, List.foldl_cons,
      loadHotkeyStep_code acc x (hmem x (List.mem_cons_self x xs))]
    exact ih (fun i hi => hmem i (List.mem_cons_of_mem x hi)) _

theorem takeWhile_append_stop {α : Type} (p : α → Bool) (l1 l2 : List α) (c : α)
    (h1 : ∀ x ∈ l1, p x = true) (hc : p c = false) :
    (l1 ++ c :: l2).takeWhile p = l1 := by
  induction l1 with
  | nil => simp [List.takeWhile, hc]
  | cons y ys ih =>
    rw [List.cons_append, List.takeWhile_cons, h1 y (List.mem_cons_self y ys)]
    simp only [if_true]
    rw [ih (fun x hx => h1 x (List.mem_cons_of_mem y hx))]

/-- An empty character string from the hotkey save loop means the mask
has no recognized button set, hence (within 16 bits) is 0. -/
theorem saveHotkeyChars_eq_nil {mask : Nat} (hm : mask < 2 ^ 16)
    (hc : SaveHotkeyChars mask = []) : mask = 0 := by
  rw [SaveHotkeyChars, List.map_eq_nil_iff] at hc
  apply Nat.eq_of_testBit_eq
  intro j
  rw [Nat.zero_testBit]
  by_cases hj : j < 16
  · by_contra hb
    have hbt : mask.testBit j = true := by
      cases hbe : mask.testBit j
      · exact absurd hbe hb
      · rfl
    have : j ∈ (List.range 16).filter (fun i => mask &&& (1 <<< i) ≠ 0) := by
      rw [List.mem_filter, List.mem_range]
      exact ⟨hj, by simpa using (and_shift_ne_zero_iff mask j).mpr hbt⟩
    rw [hc] at this
    exact absurd this (List.not_mem_nil j)
  · exact Nat.testBit_lt_two_pow
      (lt_of_lt_of_le hm (Nat.pow_le_pow_right (by norm_num) (by omega)))

/-- Every character emitted by the hotkey save loop is a code character
of a recognized button. -/
theorem saveHotkeyChars_mem {mask : Nat} {c : Char} (hc : c ∈ SaveHotkeyChars mask) :
    ∃ i < 16, c = OpenDinguxButtonSave.getD i ' ' := by
  rw [SaveHotkeyChars, List.mem_map] at hc
  obtain ⟨i, hi, rfl⟩ := hc
  rw [List.mem_filter, List.mem_range] at hi
  exact ⟨i, hi.1, rfl⟩

/-- Saving a 16-bit hotkey mask and loading the resulting token restores
the mask. -/
theorem loadHotkey_saveHotkey {mask : Nat} (hm : mask < 2 ^ 16) :
    LoadHotkeyFunction (SaveHotkeyToken mask) = mask := by
  by_cases hc : SaveHotkeyChars mask = []
  · rw [saveHotkeyChars_eq_nil hm hc]
    decide
  · have hcodes : ∀ x ∈ SaveHotkeyChars mask, (decide (x ≠ ' ')) = true := by
      intro x hx
      obtain ⟨i, hi, rfl⟩ := saveHotkeyChars_mem hx
      have : ∀ i < 16, OpenDinguxButtonSave.getD i ' ' ≠ ' ' := by decide
      simpa using this i hi
    have hTok : SaveHotkeyToken mask = SaveHotkeyChars mask := by
      rw [SaveHotkeyToken, SaveHotkeyTemp, if_neg hc]
      exact takeWhile_append_stop _ _ _ _ hcodes (by decide)
    obtain ⟨d, ds, hds⟩ := List.exists_cons_of_ne_nil hc
    have hdx : d ≠ 'x' := by
      have hdmem : d ∈ SaveHotkeyChars mask := by rw [hds]; exact List.mem_cons_self d ds
      obtain ⟨i, hi, rfl⟩ := saveHotkeyChars_mem hdmem
      have : ∀ i < 16, OpenDinguxButtonSave.getD i ' ' ≠ 'x' := by decide
      exact this i hi
    rw [hTok, LoadHotkeyFunction, hds]
    rw [if_neg (by simpa using hdx)]
    rw [← hds]
    rw [SaveHotkeyChars]
    rw [foldl_loadHotkeyStep_map _ (fun i hi => (List.mem_range.mp (List.mem_filter.mp hi).1))]
    rw [foldl_lor_filter_range mask 16 0, Nat.zero_or, Nat.mod_eq_of_lt hm]

/-- ASCII `tolower`, as applied character-by-character by
`strcasecmp`. -/
def asciiLower (c : Char) : Char :=
  if 'A' ≤ c ∧ c ≤ 'Z' then Char.ofNat (c.toNat + 32) else c

/-- `strcasecmp(a, b) == 0`: ASCII case-insensitive string equality. -/
def strCaseEq (a b : String) : Bool :=
  a.toList.map asciiLower == b.toList.map asciiLower

/-- `DefaultLoadFunction` (gui.c lines 357-369) as a function on the
choice-index target: the first choice whose persistent token matches the
value case-insensitively gives the new index; with no match the target
is left unchanged (and a warning is traced). -/
def DefaultLoadIndex (choices : List (String × String)) (value : String) (old : Nat) : Nat :=
  match choices.findIdx? (fun c => strCaseEq c.2 value) with
  | some i => i
  | none => old

/-- The token emitted by `DefaultSaveFunction` (gui.c lines 371-376) for
index `idx`: the persistent token of the choice at that index (the
emitted line is `name = token #pretty`). -/
def DefaultSaveToken (choices : List (String × String)) (idx : Nat) : String :=
  (choices.getD idx ("", "")).2

/-- Choice list of `DisplayMenu_BootSource` (gui.c lines 970-974),
as (pretty, persistent) pairs. -/
def BootSourceChoices : List (String × String) :=
  [("Cartridge ROM", "cartridge"), ("GBA BIOS", "gba_bios")]

/-- Choice list of `DisplayMenu_FPSCounter` (gui.c lines 976-980). -/
def FPSCounterChoices : List (String × String) :=
  [("Hide", "hide"), ("Show", "show")]

/-- Choice list of `DisplayMenu_ScaleMode` (gui.c lines 982-986). -/
def ScaleModeChoices : List (String × String) :=
  [("Aspect", "aspect"), ("Full", "fullscreen"), ("None", "original")]

/-- Choice list of `DisplayMenu_Frameskip` (gui.c lines 988-992). -/
def FrameskipChoices : List (String × String) :=
  [("Automatic", "auto"), ("0 (~60 FPS)", "0"), ("1 (~30 FPS)", "1"),
   ("2 (~20 FPS)", "2"), ("3 (~15 FPS)", "3")]

/-- Choice list of `DisplayMenu_FastForwardTarget` (gui.c lines
994-998). -/
def FastForwardTargetChoices : List (String × String) :=
  [("2x (~120 FPS)", "2"), ("3x (~180 FPS)", "3"), ("4x (~240 FPS)", "4"),
   ("5x (~300 FPS)", "5"), ("6x (~360 FPS)", "6")]

/-- The choice lists of every option entry in the menu tree that uses
the default load/save pair (a plain OpenDingux build, without the
`GCW_ZERO`-only analog-sensitivity entry). -/
def DefaultOptionChoiceLists : List (List (String × String)) :=
  [BootSourceChoices, FPSCounterChoices, ScaleModeChoices, FrameskipChoices,
   FastForwardTargetChoices]

/-- C4: save-then-load is the identity on well-formed targets. For every
option entry of the menu tree using the default codec and every valid
choice index, reloading the saved token restores the index regardless
of the prior target value; for every remap target holding at most one
recognized button, reloading the saved token restores the mask; and for
every hotkey target (any subset of the 16 recognized buttons), reloading
the saved token restores the mask. -/
theorem SaveLoad_roundtrip_spec :
    (∀ choices ∈ DefaultOptionChoiceLists, ∀ old idx : Nat, idx < choices.length →
      DefaultLoadIndex choices (DefaultSaveToken choices idx) old = idx) ∧
    (∀ mask : Nat, (mask = 0 ∨ ∃ i < 16, mask = 2 ^ i) →
      LoadMappingFunction (SaveMappingToken mask) = mask) ∧
    (∀ mask : Nat, mask < 2 ^ 16 →
      LoadHotkeyFunction (SaveHotkeyToken mask) = mask) := by
  refine ⟨?_, ?_, fun mask hm => loadHotkey_saveHotkey hm⟩
  · have key : ∀ choices ∈ DefaultOptionChoiceLists, ∀ idx < choices.length,
        choices.findIdx? (fun c => strCaseEq c.2 (DefaultSaveToken choices idx))
          = some idx := by decide
    intro choices hch old idx hidx
    rw [DefaultLoadIndex, key choices hch idx hidx]
  · have key : ∀ i < 16, LoadMappingFunction (SaveMappingToken (2 ^ i)) = 2 ^ i := by decide
    rintro mask (rfl | ⟨i, hi, rfl⟩)
    · decide
    · exact key i hi

/-- Witness for C4: reloading the saved form of choice index 1 of the
boot-source entry yields 1 (whatever the prior target), reloading a
saved single-button remap restores it, and reloading a saved three-key
hotkey restores it. -/
theorem SaveLoad_roundtrip_spec_witness :
    DefaultLoadIndex BootSourceChoices (DefaultSaveToken BootSourceChoices 1) 0 = 1 ∧
    LoadMappingFunction (SaveMappingToken 4) = 4 ∧
    LoadHotkeyFunction (SaveHotkeyToken 1027) = 1027 :=
  ⟨SaveLoad_roundtrip_spec.1 BootSourceChoices (by decide) 0 1 (by decide),
   SaveLoad_roundtrip_spec.2.1 4 (Or.inr ⟨2, by decide, by decide⟩),
   SaveLoad_roundtrip_spec.2.2 1027 (by decide)⟩

/-- The remap slots whose values `FixUpSettings` checks (gui.c lines
1361-1364): indices 0 through 9 and 12 of `KeypadRemapping`. -/
def FixUpCheckedSlots : List Nat := [0, 1, 2, 3, 4, 5, 6, 7, 8, 9, 12]

/-- `FixUpSettings` (gui.c lines 1359-1369) acting on the remap table:
if any checked slot is unbound (zero), replace the entire table by the
built-in defaults (the `memcpy` from `DefaultKeypadRemapping`, an array
defined outside this module and therefore taken as a parameter);
otherwise leave the table untouched. -/
def FixUpSettings (defaults remap : List Nat) : List Nat :=
  if remap.getD 0 0 = 0 ∨ remap.getD 1 0 = 0 ∨ remap.getD 2 0 = 0
      ∨ remap.getD 3 0 = 0 ∨ remap.getD 4 0 = 0 ∨ remap.getD 5 0 = 0
      ∨ remap.getD 6 0 = 0 ∨ remap.getD 7 0 = 0 ∨ remap.getD 8 0 = 0
      ∨ remap.getD 9 0 = 0 ∨ remap.getD 12 0 = 0
  then defaults else remap

/-- C7: the post-load fix-up pass is all-or-nothing — the result is
either the untouched remap table or the complete default table — and the
replacement happens exactly when at least one of the checked slots
(indices 0-9 and 12) is zero, regardless of the unchecked slots. -/
theorem FixUpSettings_spec :
    ∀ defaults remap : List Nat,
      (FixUpSettings defaults remap = remap ∨ FixUpSettings defaults remap = defaults) ∧
      ((∃ i ∈ FixUpCheckedSlots, remap.getD i 0 = 0) →
        FixUpSettings defaults remap = defaults) ∧
      ((¬ ∃ i ∈ FixUpCheckedSlots, remap.getD i 0 = 0) →
        FixUpSettings defaults remap = remap) := by
  intro defaults remap
  refine ⟨?_, ?_, ?_⟩
  · rw [FixUpSettings]
    by_cases h : remap.getD 0 0 = 0 ∨ remap.getD 1 0 = 0 ∨ remap.getD 2 0 = 0
        ∨ remap.getD 3 0 = 0 ∨ remap.getD 4 0 = 0 ∨ remap.getD 5 0 = 0
        ∨ remap.getD 6 0 = 0 ∨ remap.getD 7 0 = 0 ∨ remap.getD 8 0 = 0
        ∨ remap.getD 9 0 = 0 ∨ remap.getD 12 0 = 0
    · rw [if_pos h]; right; rfl
    · rw [if_neg h]; left; rfl
  · rintro ⟨i, hi, h0⟩
    rw [FixUpSettings]
    apply if_pos
    simp only [FixUpCheckedSlots, List.mem_cons, List.not_mem_nil, or_false] at hi
    rcases hi with rfl | rfl | rfl | rfl | rfl | rfl | rfl | rfl | rfl | rfl | rfl <;> tauto
  · intro h
    rw [FixUpSettings]
    apply if_neg
    intro hcond
    apply h
    rcases hcond with h1 | h1 | h1 | h1 | h1 | h1 | h1 | h1 | h1 | h1 | h1 <;>
      exact ⟨_, by decide, h1⟩

/-- Witness for C7: a table whose checked slot 3 is unbound is wholly
replaced by the defaults; a table with every checked slot bound is left
untouched even though its unchecked slots 10 and 11 are zero. -/
theorem FixUpSettings_spec_witness :
    FixUpSettings [9, 9, 9, 9, 9, 9, 9, 9, 9, 9, 9, 9, 9] [1, 2, 3, 0, 5, 6, 7, 8, 1, 2, 3, 4, 5]
      = [9, 9, 9, 9, 9, 9, 9, 9, 9, 9, 9, 9, 9] ∧
    FixUpSettings [9, 9, 9, 9, 9, 9, 9, 9, 9, 9, 9, 9, 9] [1, 2, 3, 4, 5, 6, 7, 8, 1, 2, 0, 0, 5]
      = [1, 2, 3, 4, 5, 6, 7, 8, 1, 2, 0, 0, 5] :=
  ⟨(FixUpSettings_spec _ _).2.1 ⟨3, by decide, by decide⟩,
   (FixUpSettings_spec _ _).2.2 (by decide)⟩

/-- The digit-producing loops of `print_u64` (gui.c lines 236-249),
extracted functionally: first the number of digits is counted, then the
buffer is filled from the least significant digit backwards; the joint
effect is the decimal digits of `v`, most significant first, and no
digits at all for `v = 0` (both loops run only while the value is
positive). -/
def u64Digits (v : Nat) : List Char :=
  if h : v = 0 then []
  else u64Digits (v / 10) ++ [Char.ofNat (48 + v % 10)]
  termination_by v
  decreasing_by exact Nat.div_lt_self (Nat.pos_of_ne_zero h) (by norm_num)

/-- `print_u64` (gui.c lines 230-251): `"0"` for zero, otherwise the
digit loop's output. -/
def print_u64 (v : Nat) : String :=
  if v = 0 then "0" else String.mk (u64Digits v)

/-- `print_i64` (gui.c lines 253-264) over the signed 64-bit range: the
minimum value (the only value below `-9223372036854775807`) is printed
from a literal because it has no positive counterpart; other negatives
print a `-` followed by `print_u64` of the magnitude. -/
def print_i64 (v : Int) : String :=
  if v < -9223372036854775807 then "-9223372036854775808"
  else if v < 0 then "-" ++ print_u64 (-v).toNat
  else print_u64 v.toNat

/-- Big-endian decimal interpretation of a digit string. -/
def parseDecNat (ds : List Char) : Nat :=
  ds.foldl (fun a c => 10 * a + (c.toNat - 48)) 0

/-- Decimal interpretation of an optionally `-`-signed digit string. -/
def parseDecInt (s : String) : Int :=
  if s.toList.headD ' ' = '-' then -(parseDecNat s.toList.tail : Int)
  else (parseDecNat s.toList : Int)

theorem parseDecNat_append_digit (ds : List Char) (c : Char) :
    parseDecNat (ds ++ [c]) = 10 * parseDecNat ds + (c.toNat - 48) := by
  rw [parseDecNat, List.foldl_append, List.foldl_cons, List.foldl_nil]
  rfl

/-- The digit loop is inverted by decimal interpretation. -/
theorem parseDecNat_u64Digits : ∀ v : Nat, parseDecNat (u64Digits v) = v := by
  intro v
  induction v using Nat.strong_induction_on with
  | _ v ih =>
    by_cases h : v = 0
    · subst h; rw [u64Digits]; rfl
    · rw [u64Digits, dif_neg h, parseDecNat_append_digit,
        ih (v / 10) (Nat.div_lt_self (Nat.pos_of_ne_zero h) (by norm_num))]
      have hd : v % 10 < 10 := Nat.mod_lt _ (by norm_num)
      have key : ∀ d < 10, (Char.ofNat (48 + d)).toNat - 48 = d := by decide
      rw [key _ hd, Nat.div_add_mod]

theorem u64Digits_ne_nil {v : Nat} (h : v ≠ 0) : u64Digits v ≠ [] := by
  rw [u64Digits, dif_neg h]
  simp

theorem headD_append_of_ne_nil {α : Type} (l1 l2 : List α) (d : α) (h : l1 ≠ []) :
    (l1 ++ l2).headD d = l1.headD d := by
  cases l1 with
  | nil => exact absurd rfl h
  | cons x xs => rfl

/-- A positive value never prints with a leading zero. -/
theorem u64Digits_head_ne_zero : ∀ v : Nat, v ≠ 0 → (u64Digits v).headD ' ' ≠ '0' := by
  intro v
  induction v using Nat.strong_induction_on with
  | _ v ih =>
    intro h
    rw [u64Digits, dif_neg h]
    by_cases h10 : v / 10 = 0
    · have hv : v < 10 := by omega
      rw [h10, u64Digits, dif_pos rfl, List.nil_append]
      have hmod : v % 10 = v := Nat.mod_eq_of_lt hv
      rw [hmod]
      have key : ∀ d, d < 10 → d ≠ 0 → (([Char.ofNat (48 + d)] : List Char).headD ' ') ≠ '0' := by
        decide
      exact key v hv h
    · rw [headD_append_of_ne_nil _ _ _ (u64Digits_ne_nil h10)]
      exact ih (v / 10) (Nat.div_lt_self (Nat.pos_of_ne_zero h) (by norm_num)) h10

/-- Every character the digit loop produces is a decimal digit. -/
theorem u64Digits_all_digits : ∀ v : Nat, ∀ c ∈ u64Digits v, 48 ≤ c.toNat ∧ c.toNat ≤ 57 := by
  intro v
  induction v using Nat.strong_induction_on with
  | _ v ih =>
    intro c hc
    by_cases h : v = 0
    · subst h; rw [u64Digits, dif_pos rfl] at hc; exact absurd hc (List.not_mem_nil c)
    · rw [u64Digits, dif_neg h, List.mem_append] at hc
      rcases hc with hc | hc
      · exact ih (v / 10) (Nat.div_lt_self (Nat.pos_of_ne_zero h) (by norm_num)) c hc
      · rw [List.mem_singleton] at hc
        subst hc
        have hd : v % 10 < 10 := Nat.mod_lt _ (by norm_num)
        have key : ∀ d < 10, 48 ≤ (Char.ofNat (48 + d)).toNat ∧ (Char.ofNat (48 + d)).toNat ≤ 57 := by
          decide
        exact key _ hd

theorem toList_dash_append (ds : List Char) : ("-" ++ String.mk ds).toList = '-' :: ds := rfl

/-- The digit portion of a formatted signed value: everything after the
sign for negatives, the whole output otherwise. -/
def DigitPart (v : Int) : List Char :=
  if v < 0 then (print_i64 v).toList.tail else (print_i64 v).toList

/-- C9: `print_i64` produces the standard decimal representation of
every signed 64-bit value: interpreting the output as an optionally
`-`-signed decimal numeral gives the value back, the output starts with
`-` exactly when the value is negative, and the digit portion is a
nonempty string of decimal digits with no leading zero (except the
single `0` of zero itself); in particular the minimum representable
value prints as `-9223372036854775808`. -/
theorem print_i64_spec :
    print_i64 (-(2 ^ 63)) = "-9223372036854775808" ∧
    (∀ v : Int, -(2 ^ 63) ≤ v → v < 2 ^ 63 →
      parseDecInt (print_i64 v) = v ∧
      (((print_i64 v).toList.headD ' ' = '-') ↔ v < 0) ∧
      DigitPart v ≠ [] ∧
      (∀ c ∈ DigitPart v, 48 ≤ c.toNat ∧ c.toNat ≤ 57) ∧
      (v ≠ 0 → (DigitPart v).headD ' ' ≠ '0')) := by
  have hmin : print_i64 (-(2 ^ 63)) = "-9223372036854775808" := by
    rw [print_i64, if_pos (by norm_num)]
  refine ⟨hmin, ?_⟩
  intro v hlo hhi
  by_cases hc1 : v < -9223372036854775807
  · have hv : v = -(2 ^ 63) := by omega
    subst hv
    rw [DigitPart, if_pos (by norm_num), hmin]
    refine ⟨?_, ?_, ?_, ?_, ?_⟩
    · decide
    · exact ⟨fun _ => by norm_num, fun _ => by decide⟩
    · decide
    · decide
    · intro _; decide
  · by_cases hneg : v < 0
    · set n := (-v).toNat with hn
      have hn0 : n ≠ 0 := by
        simp only [hn]
        omega
      have hnv : (n : Int) = -v := Int.toNat_of_nonneg (by omega)
      have hp : print_i64 v = "-" ++ String.mk (u64Digits n) := by
        rw [print_i64, if_neg hc1, if_pos hneg, print_u64, if_neg hn0]
      have htl : (print_i64 v).toList = '-' :: u64Digits n := by
        rw [hp, toList_dash_append]
      have hdp : DigitPart v = u64Digits n := by
        rw [DigitPart, if_pos hneg, htl, List.tail_cons]
      refine ⟨?_, ?_, ?_, ?_, ?_⟩
      · rw [parseDecInt, htl]
        have hcond : ('-' :: u64Digits n).headD ' ' = '-' := rfl
        rw [if_pos hcond, List.tail_cons, parseDecNat_u64Digits]
        omega
      · rw [htl]
        exact ⟨fun _ => hneg, fun _ => rfl⟩
      · rw [hdp]; exact u64Digits_ne_nil hn0
      · rw [hdp]; exact u64Digits_all_digits n
      · intro _; rw [hdp]; exact u64Digits_head_ne_zero n hn0
    · set n := v.toNat with hn
      have hnv : (n : Int) = v := Int.toNat_of_nonneg (by omega)
      by_cases hn0 : n = 0
      · have hv : v = 0 := by omega
        subst hv
        have hp : print_i64 (0 : Int) = "0" := by
          rw [print_i64, if_neg hc1, if_neg hneg]
          rfl
        have hdp : DigitPart 0 = ['0'] := by
          rw [DigitPart, if_neg hneg, hp]
          rfl
        refine ⟨?_, ?_, ?_, ?_, ?_⟩
        · rw [hp]; decide
        · rw [hp]
          constructor
          · intro hcontra; exact absurd hcontra (by decide)
          · intro hcontra; exact absurd hcontra (by norm_num)
        · rw [hdp]; decide
        · rw [hdp]; decide
        · intro hcontra; exact absurd rfl hcontra
      · have hp : print_i64 v = String.mk (u64Digits n) := by
          rw [print_i64, if_neg hc1, if_neg hneg, print_u64, if_neg hn0]
        have htl : (print_i64 v).toList = u64Digits n := by rw [hp]; rfl
        have hdp : DigitPart v = u64Digits n := by
          rw [DigitPart, if_neg hneg, htl]
        obtain ⟨c, cs, hcs⟩ := List.exists_cons_of_ne_nil (u64Digits_ne_nil hn0)
        have hcmem : c ∈ u64Digits n := by rw [hcs]; exact List.mem_cons_self c cs
        have hcdig := u64Digits_all_digits n c hcmem
        have hcdash : c ≠ '-' := by
          intro hcontra
          rw [hcontra] at hcdig
          exact absurd hcdig (by decide)
        refine ⟨?_, ?_, ?_, ?_, ?_⟩
        · rw [parseDecInt, htl, hcs]
          simp only [List.headD_cons]
          rw [if_neg hcdash, ← hcs, parseDecNat_u64Digits]
          omega
        · rw [htl, hcs]
          simp only [List.headD_cons]
          exact ⟨fun hcontra => absurd hcontra hcdash, fun hcontra => absurd hcontra hneg⟩
        · rw [hdp]; exact u64Digits_ne_nil hn0
        · rw [hdp]; exact u64Digits_all_digits n
        · intro _; rw [hdp]; exact u64Digits_head_ne_zero n hn0

/-- Witness for C9 at the minimum signed 64-bit value: its printed form
parses back to it, and it prints with a leading minus sign. -/
theorem print_i64_spec_witness :
    parseDecInt (print_i64 (-(2 ^ 63))) = -(2 ^ 63) ∧
    ((print_i64 (-(2 ^ 63))).toList.headD ' ' = '-') :=
  ⟨(print_i64_spec.2 (-(2 ^ 63)) (by norm_num) (by norm_num)).1,
   ((print_i64_spec.2 (-(2 ^ 63)) (by norm_num) (by norm_num)).2.1).mpr (by norm_num)⟩

/-- `' '` or `'\t'`, the whitespace skipped by `ReGBA_LoadSettings`
around the name, the `=` and the value. -/
def isBlank (c : Char) : Bool := c == ' ' || c == '\t'

/-- Whitespace trimmed from the end of the value (gui.c line 1442). -/
def isTrailWS (c : Char) : Bool := c == ' ' || c == '\t' || c == '\n' || c == '\r'

def SkipBlanksAux : List Char → Nat → Nat
  | [], pos => pos
  | c :: rest, pos => if isBlank c then SkipBlanksAux rest (pos + 1) else pos

/-- The whitespace-skipping loops of `ReGBA_LoadSettings` (gui.c lines
1400-1401, 1418-1419, 1425-1426): advance from `pos` past blanks (the
character at any position at or past the end of the line is the `NUL`
terminator, which is not blank). -/
def SkipBlanks (line : List Char) (pos : Nat) : Nat :=
  SkipBlanksAux (line.drop pos) pos

/-- The name-scanning loop of `ReGBA_LoadSettings` (gui.c lines
1403-1410), with explicit fuel. The loop stops on `NUL`, blank or `=`;
for an ordinary character it records the first position in `opt` and
advances; on `#` it executes `continue`, which re-tests the *unchanged*
state — so the fuel runs out (`none`) whenever a `#` is reached. -/
def ScanName : List Char → Nat → Nat → Option Nat → Option (Nat × Option Nat)
  | _, 0, _, _ => none
  | line, fuel + 1, pos, opt =>
    if line.getD pos (Char.ofNat 0) = Char.ofNat 0 ∨ line.getD pos (Char.ofNat 0) = ' '
        ∨ line.getD pos (Char.ofNat 0) = '\t' ∨ line.getD pos (Char.ofNat 0) = '=' then
      some (pos, opt)
    else if line.getD pos (Char.ofNat 0) = '#' then
      ScanName line fuel pos opt
    else
      ScanName line fuel (pos + 1) (if opt = none then some pos else opt)

/-- Result of tokenizing one configuration line. -/
inductive LineParse where
  /-- The name-scanning loop never terminates. -/
  | hang : LineParse
  /-- The line yields no `(name, value)` pair; the C code executes
  `continue` and moves to the next line. -/
  | skip : LineParse
  /-- The line tokenizes into a name and a value. -/
  | kv (name value : String) : LineParse
deriving DecidableEq

/-- The per-line tokenizer of `ReGBA_LoadSettings` (gui.c lines
1394-1446): skip leading blanks; scan the name; require an `=` (possibly
after more blanks); skip blanks; take the value up to `NUL` or a `#`
comment; trim trailing whitespace. `fuel` bounds the iterations of the
name-scanning loop, whose `#` case makes no progress. -/
def TokenizeLine (fuel : Nat) (line : List Char) : LineParse :=
  match ScanName line fuel (SkipBlanks line 0) none with
  | none => .hang
  | some (p, none) => .skip
  | some (p, some os) =>
    let name : List Char := (line.drop os).take (p - os)
    let afterEq : Option Nat :=
      if line.getD p (Char.ofNat 0) = '=' then some (p + 1)
      else
        let q0 := SkipBlanks line (p + 1)
        if line.getD q0 (Char.ofNat 0) = '=' then some (q0 + 1) else none
    match afterEq with
    | none => .skip
    | some q =>
      let r := SkipBlanks line q
      if line.getD r (Char.ofNat 0) = '#' ∨ line.length ≤ r then .skip
      else
        let seg := (line.drop r).takeWhile (fun ch => ch ≠ '#')
        .kv (String.mk name) (String.mk (seg.reverse.dropWhile isTrailWS).reverse)

/-- Any state of the name-scanning loop that sits on a `#` character
consumes all its fuel without terminating. -/
theorem scanName_hash_diverges (line : List Char) (pos : Nat) (opt : Option Nat)
    (h : line.getD pos (Char.ofNat 0) = '#') :
    ∀ fuel, ScanName line fuel pos opt = none := by
  intro fuel
  induction fuel with
  | zero => rfl
  | succ n ih =>
    rw [ScanName, h]
    rw [if_neg (by decide), if_pos rfl]
    exact ih

/-- C2 (refuted — code bug): the tokenizer does **not** terminate on
every line. A line whose first non-whitespace character is `#` (a
full-line comment) makes the name-scanning loop spin forever, because
`continue` on `#` re-tests an unchanged state: no amount of fuel lets it
finish. A `#` in the value position, by contrast, is stripped as a
comment, with surrounding whitespace ignored. -/
theorem TokenizeLine_full_comment_hangs :
    (∀ fuel : Nat, TokenizeLine fuel ("# a comment".toList) = LineParse.hang) ∧
    TokenizeLine 300 ("  name =  value \t#comment\n".toList) = LineParse.kv "name" "value" := by
  constructor
  · intro fuel
    rw [TokenizeLine]
    rw [scanName_hash_diverges _ _ _ (by decide) fuel]
  · decide

/-- The mutable `uint32_t` location an option entry's `Target` points
at: one of the named setting variables, a `KeypadRemapping` slot, or a
`Hotkeys` slot. -/
inductive TargetRef where
  | bootFromBIOS
  | showFPS
  | scaleMode
  | userFrameskip
  | fastForwardTarget
  | keypad (i : Nat)
  | hotkeySlot (i : Nat)
deriving DecidableEq

/-- Which load operation an option entry carries (its `LoadFunction`
pointer): the default choice-list codec, the single-button remap codec,
or the multi-button hotkey codec. -/
inductive LoadKind where
  | choiceList
  | mapping
  | hotkey
deriving DecidableEq

/-- The persistence-relevant data of a `KIND_OPTION` menu entry. -/
structure OptEntry where
  persistentName : String
  choices : List (String × String)
  loadKind : LoadKind
  target : TargetRef
deriving DecidableEq

/-- A menu entry as seen by the persistence driver: option entries carry
their data, submenu entries carry their child menu (a list of entries),
and display/custom entries carry nothing it consults. -/
inductive MTree where
  | option (e : OptEntry)
  | submenu (entries : List MTree)
  | display
  | custom

/-- `Menu_FindByPersistentName` (gui.c lines 1301-1324): depth-first,
first-match, case-insensitive lookup of an option entry by persistent
name; submenu entries are entered in order, display/custom entries are
skipped. `fuel` bounds the total number of entries visited; the static
menu tree is finite, so any sufficiently large fuel realizes the C
behavior (the recursion is kept fuel-indexed so that it stays
kernel-computable). -/
def Menu_FindByPersistentName : Nat → String → List MTree → Option OptEntry
  | 0, _, _ => none
  | _ + 1, _, [] => none
  | fuel + 1, name, .option e :: ts =>
      if strCaseEq e.persistentName name then some e
      else Menu_FindByPersistentName fuel name ts
  | fuel + 1, name, .submenu es :: ts =>
      match Menu_FindByPersistentName fuel name es with
      | some e => some e
      | none => Menu_FindByPersistentName fuel name ts
  | fuel + 1, name, .display :: ts => Menu_FindByPersistentName fuel name ts
  | fuel + 1, name, .custom :: ts => Menu_FindByPersistentName fuel name ts

/-- `NativeCodeMenu` (gui.c lines 797-800): four display entries. -/
def NativeCodeMenuEntries : List MTree := [.display, .display, .display, .display]

/-- `MetadataMenu` (gui.c lines 844-847): seven display entries. -/
def MetadataMenuEntries : List MTree :=
  [.display, .display, .display, .display, .display, .display, .display]

/-- `ExecutionMenu` (gui.c lines 883-890), without the
`PERFORMANCE_IMPACTING_STATISTICS`-only entries: two display entries. -/
def ExecutionMenuEntries : List MTree := [.display, .display]

/-- `ROMInfoMenu` (gui.c lines 946-949): three display entries. -/
def ROMInfoMenuEntries : List MTree := [.display, .display, .display]

/-- `DebugMenu` (gui.c lines 958-966), without the
`PERFORMANCE_IMPACTING_STATISTICS`-only submenu. -/
def DebugMenuEntries : List MTree :=
  [.submenu NativeCodeMenuEntries, .submenu MetadataMenuEntries,
   .submenu ExecutionMenuEntries, .submenu ROMInfoMenuEntries]

/-- `DisplayMenu` (gui.c lines 1000-1003): the five default-codec option
entries. -/
def DisplayMenuEntries : List MTree :=
  [.option ⟨"boot_from", BootSourceChoices, .choiceList, .bootFromBIOS⟩,
   .option ⟨"fps_counter", FPSCounterChoices, .choiceList, .showFPS⟩,
   .option ⟨"image_size", ScaleModeChoices, .choiceList, .scaleMode⟩,
   .option ⟨"frameskip", FrameskipChoices, .choiceList, .userFrameskip⟩,
   .option ⟨"fast_forward_target", FastForwardTargetChoices, .choiceList, .fastForwardTarget⟩]

/-- `ButtonMappingMenu` (gui.c lines 1086-1093), without the
`GCW_ZERO`-only entry: the eight remap option entries and the
`KeypadRemapping` slots their targets point at (gui.c lines
1006-1076). -/
def ButtonMappingMenuEntries : List MTree :=
  [.option ⟨"gba_a", [], .mapping, .keypad 0⟩,
   .option ⟨"gba_b", [], .mapping, .keypad 1⟩,
   .option ⟨"gba_start", [], .mapping, .keypad 3⟩,
   .option ⟨"gba_select", [], .mapping, .keypad 2⟩,
   .option ⟨"gba_l", [], .mapping, .keypad 9⟩,
   .option ⟨"gba_r", [], .mapping, .keypad 8⟩,
   .option ⟨"rapid_a", [], .mapping, .keypad 10⟩,
   .option ⟨"rapid_b", [], .mapping, .keypad 11⟩]

/-- `HotkeyMenu` (gui.c lines 1106-1109). -/
def HotkeyMenuEntries : List MTree :=
  [.option ⟨"hotkey_fast_forward", [], .hotkey, .hotkeySlot 0⟩]

/-- `MainMenu` (gui.c lines 1148-1151): the root of the static menu
tree. -/
def MainMenuEntries : List MTree :=
  [.submenu DisplayMenuEntries, .submenu ButtonMappingMenuEntries,
   .submenu HotkeyMenuEntries, .submenu DebugMenuEntries,
   .custom, .custom, .custom]

/-- The in-memory settings state: every `uint32_t` location the option
entries' targets point at. -/
structure Settings where
  bootFromBIOS : Nat
  showFPS : Nat
  scaleMode : Nat
  userFrameskip : Nat
  fastForwardTarget : Nat
  keypadRemapping : List Nat
  hotkeys : List Nat
deriving DecidableEq

def Settings.get (st : Settings) : TargetRef → Nat
  | .bootFromBIOS => st.bootFromBIOS
  | .showFPS => st.showFPS
  | .scaleMode => st.scaleMode
  | .userFrameskip => st.userFrameskip
  | .fastForwardTarget => st.fastForwardTarget
  | .keypad i => st.keypadRemapping.getD i 0
  | .hotkeySlot i => st.hotkeys.getD i 0

def Settings.set (st : Settings) : TargetRef → Nat → Settings
  | .bootFromBIOS, v => { st with bootFromBIOS := v }
  | .showFPS, v => { st with showFPS := v }
  | .scaleMode, v => { st with scaleMode := v }
  | .userFrameskip, v => { st with userFrameskip := v }
  | .fastForwardTarget, v => { st with fastForwardTarget := v }
  | .keypad i, v => { st with keypadRemapping := st.keypadRemapping.set i v }
  | .hotkeySlot i, v => { st with hotkeys := st.hotkeys.set i v }

/-- Invoking a found entry's load operation (gui.c lines 1454-1456) on
the tokenized value: the entry's `LoadFunction` pointer selects the
codec, defaulting to `DefaultLoadFunction`. -/
def applyLoad (e : OptEntry) (value : String) (st : Settings) : Settings :=
  match e.loadKind with
  | .choiceList => st.set e.target (DefaultLoadIndex e.choices value (st.get e.target))
  | .mapping => st.set e.target (LoadMappingFunction value.toList)
  | .hotkey => st.set e.target (LoadHotkeyFunction value.toList)

/-- Outcome of processing one configuration line in the read loop of
`ReGBA_LoadSettings` (gui.c lines 1390-1457). -/
inductive LineOutcome where
  /-- The tokenizer never terminates on this line. -/
  | hang : LineOutcome
  /-- The line was consumed; `warnings` warnings were traced and the
  settings are now `st`; the loop proceeds to the next line. -/
  | next (warnings : Nat) (st : Settings) : LineOutcome
  /-- After tracing `warnings` warnings, the code dereferenced the null
  `entry` pointer (gui.c line 1454): undefined behavior, modelled as a
  crash. -/
  | crash (warnings : Nat) : LineOutcome
deriving DecidableEq

/-- One iteration of the line-reading loop of `ReGBA_LoadSettings`
(gui.c lines 1390-1457): tokenize the line; look the name up in the menu
tree; on a missing entry trace one warning — and then, with no `continue`
guarding it, unconditionally dereference `entry` to fetch its
`LoadFunction` (lines 1454-1456), which for a null `entry` is a crash;
on a found entry invoke its load operation. -/
def ReGBA_LoadLine (fuel : Nat) (st : Settings) (line : List Char) : LineOutcome :=
  match TokenizeLine fuel line with
  | .hang => .hang
  | .skip => .next 0 st
  | .kv name value =>
    match Menu_FindByPersistentName 64 name MainMenuEntries with
    | none => .crash 1
    | some e => .next 0 (applyLoad e value st)

/-- C1 (refuted — code bug): a configuration line whose key is not the
persistent name of any option entry does record exactly one warning, but
the load then dereferences the null lookup result instead of continuing
with the next line: `ReGBA_LoadSettings` crashes on the very first
unknown key, for any prior settings state. -/
theorem LoadLine_unknown_key_crashes :
    (∀ st : Settings, ReGBA_LoadLine 300 st ("foo = bar".toList) = LineOutcome.crash 1) ∧
    Menu_FindByPersistentName 64 "foo" MainMenuEntries = none ∧
    (∀ st : Settings, ReGBA_LoadLine 300 st ("fps_counter = show".toList)
      = LineOutcome.next 0 { st with showFPS := 1 }) := by
  refine ⟨fun st => ?_, by decide, fun st => ?_⟩
  · rfl
  · rfl

/-- A menu entry as seen by the navigation loop of `ReGBA_Menu`. The
concrete tree's option entries either have no `ButtonEnterFunction`
(`DefaultEnterFunction` does nothing on a non-submenu) or override it
with a capture action (`ActionSetMapping` and friends), none of which
change the active menu or entry index; its custom entries override it
with `ActionReset`/`ActionReturn`/`ActionExit`, all of which set the
active menu to `NULL`. -/
inductive NavEntry where
  | option
  | submenu (target : Nat)
  | display
  | custom
deriving DecidableEq

/-- A menu as seen by the navigation loop: its `Parent` back-reference
(`none` at the root) and its entry list. -/
structure NavMenu where
  parent : Option Nat
  entries : List NavEntry
deriving DecidableEq

/-- The mutable navigation state of `ReGBA_Menu`: the active menu
(`none` terminates the loop) and the per-menu `ActiveEntryIndex` fields
(the menu structs are static, so each menu keeps its index field between
visits). -/
structure NavState where
  active : Option Nat
  entryIndex : List Nat
deriving DecidableEq

/-- The discrete actions `GetGUIAction` can report to `ReGBA_Menu`. -/
inductive GUI_Action where
  | enter
  | leave
  | up
  | down
  | left
  | right
  | noAction
deriving DecidableEq

/-- One iteration of the dispatch-and-hooks part of the `ReGBA_Menu`
loop (gui.c lines 1182-1248) over a static menu store, with the default
menu-level functions (none of the concrete menus overrides up, down or
leave, and none defines `InitFunction`/`EndFunction` hooks):
`DefaultEnterFunction` (lines 203-209) switches to the submenu target
without touching any entry index; `DefaultLeaveFunction` (lines 211-214)
goes to the parent; `DefaultUpFunction`/`DefaultDownFunction` (lines
164-179) move the current menu's index with wrap-around; left/right act
only on the entry's target value, never on the navigation state. After
dispatch, a menu change runs the end/init hooks (lines 1241-1248) — and
nothing else: no code in the loop resets the new menu's
`ActiveEntryIndex`. -/
def ReGBA_MenuStep (menus : List NavMenu) (s : NavState) (a : GUI_Action) : NavState :=
  match s.active with
  | none => s
  | some m =>
    let menu := (menus.getD m ⟨none, []⟩)
    let idx := s.entryIndex.getD m 0
    match a with
    | .enter =>
      match menu.entries.getD idx .display with
      | .submenu t => { s with active := some t }
      | .custom => { s with active := none }
      | _ => s
    | .leave => { s with active := menu.parent }
    | .up =>
      { s with entryIndex :=
          s.entryIndex.set m (if idx = 0 then menu.entries.length - 1 else idx - 1) }
    | .down =>
      { s with entryIndex :=
          s.entryIndex.set m (if menu.entries.length ≤ idx + 1 then 0 else idx + 1) }
    | .left => s
    | .right => s
    | .noAction => s

/-- The concrete menu tree of gui.c as the navigation loop sees it:
index 0 is `MainMenu`, 1 `DisplayMenu`, 2 `ButtonMappingMenu`, 3
`HotkeyMenu`, 4 `DebugMenu`, 5-8 the debug statistics submenus. -/
def NavMenus : List NavMenu :=
  [⟨none, [.submenu 1, .submenu 2, .submenu 3, .submenu 4, .custom, .custom, .custom]⟩,
   ⟨some 0, [.option, .option, .option, .option, .option]⟩,
   ⟨some 0, [.option, .option, .option, .option, .option, .option, .option, .option]⟩,
   ⟨some 0, [.option]⟩,
   ⟨some 0, [.submenu 5, .submenu 6, .submenu 7, .submenu 8]⟩,
   ⟨some 4, [.display, .display, .display, .display]⟩,
   ⟨some 4, [.display, .display, .display, .display, .display, .display, .display]⟩,
   ⟨some 4, [.display, .display]⟩,
   ⟨some 4, [.display, .display, .display]⟩]

/-- C6 (refuted — code bug): entering `DisplayMenu` from `MainMenu` when
`DisplayMenu.ActiveEntryIndex` still holds 2 from an earlier visit
leaves that index at 2: the dispatched action changes the active menu to
a non-null menu, yet neither `DefaultEnterFunction` nor the loop resets
the new menu's index to the first item (contradicting the contract
stated in the comment above `MenuModifyFunction`, gui.c lines 72-77).
The same holds for `DefaultLeaveFunction` transitions. -/
theorem MenuStep_no_index_reset :
    ReGBA_MenuStep NavMenus ⟨some 0, [0, 2, 0, 0, 0, 0, 0, 0, 0]⟩ .enter
      = ⟨some 1, [0, 2, 0, 0, 0, 0, 0, 0, 0]⟩ ∧
    (ReGBA_MenuStep NavMenus ⟨some 0, [0, 2, 0, 0, 0, 0, 0, 0, 0]⟩ .enter).active = some 1 ∧
    (ReGBA_MenuStep NavMenus ⟨some 0, [0, 2, 0, 0, 0, 0, 0, 0, 0]⟩ .enter).entryIndex.getD 1 0
      = 2 ∧
    ReGBA_MenuStep NavMenus ⟨some 4, [3, 0, 0, 0, 1, 0, 0, 0, 0]⟩ .leave
      = ⟨some 0, [3, 0, 0, 0, 1, 0, 0, 0, 0]⟩ := by
  refine ⟨rfl, rfl, rfl, rfl⟩

end ReGBA
